import Mathlib

/-!
# Verification of the go-git-searcher pipeline (src/main.go)

Shallow embedding of the single-file Go program that scans directory trees
for git repositories, extracts per-repository metadata (remote URL, last
commit date) with `getGitInfo`, sorts the collected records with
`sort.Slice`, and writes a CSV report.

Modelling conventions:
* Machine strings are Lean `String`s; Go byte-wise string comparison on
  valid UTF-8 agrees with Lean lexicographic `String` order.
* `time.Time` values produced by `time.Parse("2006-01-02 15:04:05 -0700", s)`
  are wall-clock components plus a numeric zone offset (`DateTime` below);
  `Time.After` compares absolute instants (wall clock minus offset).
* Filesystem paths are lists of path segments; the textual path of `segs`
  is `"/" ++ String.intercalate "/" segs` (clean absolute paths).
* Subprocess behaviour is an environment: each git command has a natural
  running time (seconds) and either produces stdout or fails; a command is
  killed when its context deadline passes before it completes.
-/

namespace GGS

/-- Wall-clock components plus numeric zone offset, as produced by Go
`time.Parse` with layout `2006-01-02 15:04:05 -0700`. -/
structure DateTime where
  year : Nat
  month : Nat
  day : Nat
  hour : Nat
  minute : Nat
  second : Nat
  offNeg : Bool
  offH : Nat
  offM : Nat
deriving DecidableEq

instance : Inhabited DateTime := ⟨⟨1, 1, 1, 0, 0, 0, false, 0, 0⟩⟩

/-- The character for a single decimal digit (`0 ≤ n ≤ 9`). -/
def digitChar (n : Nat) : Char := Char.ofNat (48 + n)

/-- Numeric value of a decimal digit character. -/
def toDigit (c : Char) : Nat := c.toNat - 48

/-- Is `c` an ASCII decimal digit? -/
def isDig (c : Char) : Bool := 48 ≤ c.toNat && c.toNat ≤ 57

/-- Go `isLeap` (time package): leap years of the proleptic Gregorian
calendar. -/
def isLeap (y : Nat) : Bool := y % 4 = 0 && (y % 100 ≠ 0 || y % 400 = 0)

/-- Days in month `m` of year `y`, as validated by Go `time.Parse`. -/
def daysIn (m y : Nat) : Nat :=
  if m = 2 then (if isLeap y then 29 else 28)
  else if m = 4 ∨ m = 6 ∨ m = 9 ∨ m = 11 then 30
  else 31

/-- The component range checks Go `time.Parse` performs on a parsed date. -/
def rangesOK (dt : DateTime) : Bool :=
  1 ≤ dt.month && dt.month ≤ 12 &&
  1 ≤ dt.day && dt.day ≤ daysIn dt.month dt.year &&
  dt.hour ≤ 23 && dt.minute ≤ 59 && dt.second ≤ 59

/-- A date that some successful `time.Parse` run can produce. -/
def ValidDate (dt : DateTime) : Prop := rangesOK dt = true ∧ dt.year ≤ 9999

instance (dt : DateTime) : Decidable (ValidDate dt) := by
  unfold ValidDate; infer_instance

/-- `time.Parse("2006-01-02 15:04:05 -0700", ·)` on the character list of the
input: fixed-width fields, fixed separators, numeric `±hhmm` zone, and the
range checks of `rangesOK`.  This is the parse at src/main.go:201. -/
def parseGitDateL (l : List Char) : Option DateTime :=
  match l with
  | [y1, y2, y3, y4, c1, m1, m2, c2, d1, d2, c3, h1, h2, c4, n1, n2, c5,
     e1, e2, c6, sg, z1, z2, z3, z4] =>
    if c1 = '-' && c2 = '-' && c3 = ' ' && c4 = ':' && c5 = ':' && c6 = ' ' &&
       isDig y1 && isDig y2 && isDig y3 && isDig y4 &&
       isDig m1 && isDig m2 && isDig d1 && isDig d2 &&
       isDig h1 && isDig h2 && isDig n1 && isDig n2 &&
       isDig e1 && isDig e2 &&
       (sg = '+' || sg = '-') && isDig z1 && isDig z2 && isDig z3 && isDig z4
    then
      let dt : DateTime :=
        { year := toDigit y1 * 1000 + toDigit y2 * 100 + toDigit y3 * 10 + toDigit y4
          month := toDigit m1 * 10 + toDigit m2
          day := toDigit d1 * 10 + toDigit d2
          hour := toDigit h1 * 10 + toDigit h2
          minute := toDigit n1 * 10 + toDigit n2
          second := toDigit e1 * 10 + toDigit e2
          offNeg := sg = '-'
          offH := toDigit z1 * 10 + toDigit z2
          offM := toDigit z3 * 10 + toDigit z4 }
      if rangesOK dt then some dt else none
    else none
  | _ => none

/-- `time.Parse("2006-01-02 15:04:05", ·)`: the report's output layout with
no zone; a successful parse yields offset 0 (UTC). -/
def parsePlainL (l : List Char) : Option DateTime :=
  match l with
  | [y1, y2, y3, y4, c1, m1, m2, c2, d1, d2, c3, h1, h2, c4, n1, n2, c5,
     e1, e2] =>
    if c1 = '-' && c2 = '-' && c3 = ' ' && c4 = ':' && c5 = ':' &&
       isDig y1 && isDig y2 && isDig y3 && isDig y4 &&
       isDig m1 && isDig m2 && isDig d1 && isDig d2 &&
       isDig h1 && isDig h2 && isDig n1 && isDig n2 &&
       isDig e1 && isDig e2
    then
      let dt : DateTime :=
        { year := toDigit y1 * 1000 + toDigit y2 * 100 + toDigit y3 * 10 + toDigit y4
          month := toDigit m1 * 10 + toDigit m2
          day := toDigit d1 * 10 + toDigit d2
          hour := toDigit h1 * 10 + toDigit h2
          minute := toDigit n1 * 10 + toDigit n2
          second := toDigit e1 * 10 + toDigit e2
          offNeg := false
          offH := 0
          offM := 0 }
      if rangesOK dt then some dt else none
    else none
  | _ => none

def parseGitDate (s : String) : Option DateTime := parseGitDateL s.data

def parsePlain (s : String) : Option DateTime := parsePlainL s.data

/-- Two-digit zero-padded decimal (Go `Format` field `01`, `02`, …). -/
def pad2 (n : Nat) : List Char := [digitChar (n / 10), digitChar (n % 10)]

/-- Four-digit zero-padded decimal (Go `Format` field `2006`). -/
def pad4 (n : Nat) : List Char :=
  [digitChar (n / 1000), digitChar (n / 100 % 10), digitChar (n / 10 % 10),
   digitChar (n % 10)]

/-- `t.Format("2006-01-02 15:04:05")` (src/main.go:138): prints the wall
clock components, dropping the zone offset. -/
def fmtOutL (c : DateTime) : List Char :=
  pad4 c.year ++ '-' :: pad2 c.month ++ '-' :: pad2 c.day ++ ' ' ::
  pad2 c.hour ++ ':' :: pad2 c.minute ++ ':' :: pad2 c.second

def fmtOut (c : DateTime) : String := ⟨fmtOutL c⟩

/-- Day number of a civil date relative to 1970-01-01 (proleptic Gregorian),
the arithmetic underlying Go `time` instants. -/
def daysFromCivil (y : Int) (m d : Nat) : Int :=
  let yy : Int := if m ≤ 2 then y - 1 else y
  let era : Int := (if 0 ≤ yy then yy else yy - 399) / 400
  let yoe : Int := yy - era * 400
  let mp : Int := ((m : Int) + 9) % 12
  let doy : Int := (153 * mp + 2) / 5 + (d : Int) - 1
  let doe : Int := yoe * 365 + yoe / 4 - yoe / 100 + doy
  era * 146097 + doe - 719468

/-- Absolute instant (seconds since epoch) of a parsed time: wall clock
minus the zone offset. -/
def DateTime.toSec (c : DateTime) : Int :=
  let off : Int := (if c.offNeg then -1 else 1) * ((c.offH : Int) * 3600 + (c.offM : Int) * 60)
  daysFromCivil (c.year : Int) c.month c.day * 86400 +
    (c.hour : Int) * 3600 + (c.minute : Int) * 60 + (c.second : Int) - off

/-- Go `x.After(y)`: `x`'s instant is strictly later than `y`'s. -/
def DateTime.after (x y : DateTime) : Bool := decide (y.toSec < x.toSec)

/-- The `GitProject` struct (src/main.go:17-22).  `Path` is kept as the
list of path segments of the repository root; its textual form is
`pathStr Path`. -/
structure GitProject where
  Path : List String
  ProjectName : String
  RemoteRepo : String
  LastCommitDate : DateTime
deriving DecidableEq

instance : Inhabited GitProject := ⟨⟨[], "", "", default⟩⟩

/-- Textual form of a clean absolute path given as segments. -/
def pathStr (segs : List String) : String :=
  "/" ++ String.intercalate "/" segs

/-- `filepath.Base` on a clean absolute path given as segments
(`Base("/") = "/"`). -/
def baseSeg (segs : List String) : String := segs.getLast?.getD "/"

/-- Go string comparison `x < y` on the underlying characters:
lexicographic on code points.  For valid UTF-8, byte-wise comparison (what
Go's `<` does) orders exactly like code-point comparison. -/
def strLtB : List Char → List Char → Bool
  | [], [] => false
  | [], _ :: _ => true
  | _ :: _, [] => false
  | a :: as, b :: bs =>
    if a.toNat < b.toNat then true
    else if b.toNat < a.toNat then false
    else strLtB as bs

def strLt (x y : String) : Bool := strLtB x.data y.data

/-- The `sort.Slice` comparator of src/main.go:107-117, verbatim:
both remotes non-empty ⇒ compare remotes, tie broken by `After`
(commit date descending); otherwise compare project names. -/
def lessGo (x y : GitProject) : Bool :=
  if x.RemoteRepo ≠ "" && y.RemoteRepo ≠ "" then
    if x.RemoteRepo = y.RemoteRepo then x.LastCommitDate.after y.LastCommitDate
    else strLt x.RemoteRepo y.RemoteRepo
  else strLt x.ProjectName y.ProjectName

/-- The tiered pairwise rule as worded by the specification (§4.3):
if both records have a non-empty `remoteURL`, order by `remoteURL`
lexicographically ascending and, when the `remoteURL`s are equal, by
`lastCommitTime` descending (most recent first); otherwise order by
`name` lexicographically ascending. -/
def lessSpecTiered (x y : GitProject) : Bool :=
  if x.RemoteRepo ≠ "" && y.RemoteRepo ≠ "" then
    if strLt x.RemoteRepo y.RemoteRepo then true
    else if strLt y.RemoteRepo x.RemoteRepo then false
    else decide (y.LastCommitDate.toSec < x.LastCommitDate.toSec)
  else strLt x.ProjectName y.ProjectName

/-- Go `strings.TrimSpace` on its ASCII fast path: drop leading and
trailing whitespace (`\\t \\n \\v \\f \\r` and space). -/
def isSpaceGo (c : Char) : Bool :=
  c = ' ' || c = '\t' || c = '\n' || c = '\x0b' || c = '\x0c' || c = '\r'

def trimGo (s : String) : String :=
  ⟨((s.data.dropWhile isSpaceGo).reverse.dropWhile isSpaceGo).reverse⟩

/-- One external git command in the environment: its natural running time
in seconds and its stdout on natural completion (`none` = non-zero exit or
spawn failure). -/
structure CmdRun where
  dur : Nat
  out : Option String
deriving DecidableEq

/-- Subprocess behaviour of one repository: the `git remote get-url origin`
command and the `git log -1 --format=%cd --date=iso` command. -/
structure RepoEnv where
  remote : CmdRun
  log : CmdRun
deriving DecidableEq

deriving instance DecidableEq for Except

/-- The error taxonomy of `getGitInfo`. -/
inductive GitError where
  | remoteTimeout
  | logTimeout
  | logFailed
  | parseFailed
deriving DecidableEq

/-- `getGitInfo` (src/main.go:147-207).  A single
`context.WithTimeout(…, 10*time.Second)` is created at entry and shared by
both `exec.CommandContext` invocations, so the log command is cut off when
the cumulative elapsed time of both commands reaches 10 seconds.  A command
that would naturally finish at or after the deadline is killed and its
error path sees `ctx.Err() = DeadlineExceeded`.  A non-timeout failure of
the remote command only logs a warning and leaves the remote URL empty. -/
def getGitInfo (e : RepoEnv) : Except GitError (String × DateTime) :=
  if 10 ≤ e.remote.dur then .error .remoteTimeout
  else
    let remoteRepo := match e.remote.out with
      | some s => trimGo s
      | none => ""
    if 10 ≤ e.remote.dur + e.log.dur then .error .logTimeout
    else match e.log.out with
      | none => .error .logFailed
      | some s =>
        match parseGitDate (trimGo s) with
        | some d => .ok (remoteRepo, d)
        | none => .error .parseFailed

/-- Modelled from the spec: §4.2 Step 2 requires the log invocation to be
bounded by "a fresh timeout window, not shared budget with Step 1", i.e.
each of the two commands gets its own full 10-second deadline.  The code
under src/ instead shares one window; this definition exists to compare
the two behaviours. -/
def getGitInfoFresh (e : RepoEnv) : Except GitError (String × DateTime) :=
  if 10 ≤ e.remote.dur then .error .remoteTimeout
  else
    let remoteRepo := match e.remote.out with
      | some s => trimGo s
      | none => ""
    if 10 ≤ e.log.dur then .error .logTimeout
    else match e.log.out with
      | none => .error .logFailed
      | some s =>
        match parseGitDate (trimGo s) with
        | some d => .ok (remoteRepo, d)
        | none => .error .parseFailed

mutual

/-- A filesystem node: a directory with a name and children, or a plain
file.  Children are listed in the (lexically sorted) order in which
`filepath.Walk` reads directory entries. -/
inductive FSTree where
  | dir : String → FSTreeList → FSTree
  | file : String → FSTree
deriving DecidableEq

inductive FSTreeList where
  | nil : FSTreeList
  | cons : FSTree → FSTreeList → FSTreeList
deriving DecidableEq

end

/-- The per-repository subprocess environment, keyed by the repository
root path (in segments). -/
def FsEnv : Type := List String → RepoEnv

mutual

/-- One step of `filepath.Walk` with the callback of src/main.go:64-98,
started with the node's parent path.  Returns the list of directory paths
the callback printed (every visited directory) and the `GitProject`
records appended, in order.  A directory whose full path ends in
`"/.git"` (equivalently, whose name is `.git`, since segments contain no
separator) makes the callback treat its parent as a repository root and
call `getGitInfo`; the callback then returns `nil`, so the walk still
descends into that directory's children. -/
def walkT (env : FsEnv) (par : List String) : FSTree → List (List String) × List GitProject
  | .file _ => ([], [])
  | .dir name children =>
    let p := par ++ [name]
    let here : List GitProject :=
      if name = ".git" then
        match getGitInfo (env par) with
        | .ok (r, d) => [⟨par, baseSeg par, r, d⟩]
        | .error _ => []
      else []
    let sub := walkL env p children
    (p :: sub.1, here ++ sub.2)

/-- Walk each child in order, concatenating visited paths and records. -/
def walkL (env : FsEnv) (par : List String) : FSTreeList → List (List String) × List GitProject
  | .nil => ([], [])
  | .cons t ts =>
    let r1 := walkT env par t
    let r2 := walkL env par ts
    (r1.1 ++ r2.1, r1.2 ++ r2.2)

end

mutual

/-- Well-formedness of a filesystem tree: every directory name is a
non-empty string (true of any real filesystem). -/
def FSTree.dirNamesOK : FSTree → Bool
  | .dir n ch => decide (n ≠ "") && FSTreeList.dirNamesOK ch
  | .file _ => true

def FSTreeList.dirNamesOK : FSTreeList → Bool
  | .nil => true
  | .cons t ts => FSTree.dirNamesOK t && FSTreeList.dirNamesOK ts

end

/-- One `--directory` option: the parent segments of the root directory
plus the tree rooted at it (`filepath.Walk` visits the root itself
first). -/
structure RootSpec where
  parent : List String
  tree : FSTree

/-- The records collected across all roots (src/main.go:60-104), in
discovery order. -/
def collect (env : FsEnv) (roots : List RootSpec) : List GitProject :=
  (roots.map fun r => (walkT env r.parent r.tree).2).flatten

/-!
## The sorting algorithm behind `sort.Slice`

src/main.go:107 calls Go's `sort.Slice`, which runs `pdqsort_func` from
the Go standard library (src/sort/zsortfunc.go, Go ≥ 1.19) with
`limit = bits.Len(uint(n))`.  The functions below are a direct port; Go's
bounded loops become fuel-indexed recursions whose fuel always dominates
the loop's iteration count, and every mutation goes through `lswap`.
-/

section SortModel

variable {α : Type} [Inhabited α] (less : α → α → Bool)

/-- Read index `i` of the slice. -/
def lget (l : List α) (i : Nat) : α := l.getD i default

/-- `data.Swap(i, j)`; in-bounds in every use the sort makes of it. -/
def lswap (l : List α) (i j : Nat) : List α :=
  if i < l.length ∧ j < l.length then (l.set i (lget l j)).set j (lget l i) else l

/-- The slice `l2` was obtained from `l1` by index-wise writes of existing
elements: it has the same length and only contains elements of `l1`.
Every step of the sorting algorithm preserves this relation. -/
def KeepsElems (l2 l1 : List α) : Prop :=
  l2.length = l1.length ∧ ∀ x ∈ l2, x ∈ l1

/-- Inner loop of `insertionSort_func`: shift `l[j]` left while it is less
than its left neighbour and `j > a`. -/
def insShift (l : List α) (j a : Nat) : Nat → List α
  | 0 => l
  | fuel+1 =>
    if decide (a < j) && less (lget l j) (lget l (j - 1)) then
      insShift (lswap l j (j - 1)) (j - 1) a fuel
    else l

/-- Outer loop of `insertionSort_func`: `for i := a+1; i < b; i++`. -/
def insLoop (a b : Nat) (l : List α) (i : Nat) : Nat → List α
  | 0 => l
  | fuel+1 =>
    if i < b then insLoop a b (insShift less l i a i) (i + 1) fuel else l

/-- `insertionSort_func(data, a, b)`. -/
def insertionSortGo (l : List α) (a b : Nat) : List α :=
  insLoop less a b l (a + 1) (b - a)

/-- `siftDown_func(data, lo, hi, first)` with `root` starting at `lo`. -/
def siftDownGo (l : List α) (root hi first : Nat) : Nat → List α
  | 0 => l
  | fuel+1 =>
    let child0 := 2 * root + 1
    if hi ≤ child0 then l
    else
      let child :=
        if decide (child0 + 1 < hi) &&
           less (lget l (first + child0)) (lget l (first + child0 + 1))
        then child0 + 1 else child0
      if !(less (lget l (first + root)) (lget l (first + child))) then l
      else siftDownGo (lswap l (first + root) (first + child)) child hi first fuel

/-- First loop of `heapSort_func`: `for i := (hi-1)/2; i >= 0; i--`. -/
def heapBuildGo (hi first : Nat) (l : List α) : Nat → List α
  | 0 => siftDownGo less l 0 hi first hi
  | i+1 => heapBuildGo hi first (siftDownGo less l (i + 1) hi first hi) i

/-- Second loop of `heapSort_func`: `for i := hi-1; i >= 0; i--`. -/
def heapPopGo (first : Nat) (l : List α) : Nat → List α
  | 0 => siftDownGo less (lswap l first first) 0 0 first 1
  | i+1 =>
    heapPopGo first (siftDownGo less (lswap l first (first + i + 1)) 0 (i + 1) first (i + 2)) i

/-- `heapSort_func(data, a, b)`: `first = a`, `hi = b - a`; build the heap,
then pop repeatedly. -/
def heapSortGo (l : List α) (a b : Nat) : List α :=
  if b - a = 0 then l
  else heapPopGo less a (heapBuildGo less (b - a) a l ((b - a - 1) / 2)) (b - a - 1)

/-- `reverseRange_func(data, a, b)` as a loop on `i < j` with `j = b-1`
initially. -/
def reverseRangeGo (l : List α) (i j : Nat) : Nat → List α
  | 0 => l
  | fuel+1 => if i < j then reverseRangeGo (lswap l i j) (i + 1) (j - 1) fuel else l

/-- `order2_func`: order two indices by the values at them, counting
swaps. -/
def sort2Go (l : List α) (a b swaps : Nat) : Nat × Nat × Nat :=
  if less (lget l b) (lget l a) then (b, a, swaps + 1) else (a, b, swaps)

/-- `median_func`: index of the median of three values, counting swaps. -/
def medianGo (l : List α) (a b c swaps : Nat) : Nat × Nat :=
  let r1 := sort2Go less l a b swaps
  let r2 := sort2Go less l r1.2.1 c r1.2.2
  let r3 := sort2Go less l r1.1 r2.1 r2.2.2
  (r3.2.1, r3.2.2)

/-- `medianAdjacent_func`: median of `l[i-1]`, `l[i]`, `l[i+1]`. -/
def medianAdjGo (l : List α) (i swaps : Nat) : Nat × Nat :=
  medianGo less l (i - 1) i (i + 1) swaps

/-- `choosePivot_func`: returns `(pivot, hint)` with hint 0 = unknown,
1 = increasing, 2 = decreasing. -/
def choosePivotGo (l : List α) (a b : Nat) : Nat × Nat :=
  let len := b - a
  let i := a + (len / 4) * 1
  let j := a + (len / 4) * 2
  let k := a + (len / 4) * 3
  let pv : Nat × Nat :=
    if 8 ≤ len then
      if 50 ≤ len then
        let m1 := medianAdjGo less l i 0
        let m2 := medianAdjGo less l j m1.2
        let m3 := medianAdjGo less l k m2.2
        medianGo less l m1.1 m2.1 m3.1 m3.2
      else medianGo less l i j k 0
    else (j, 0)
  (pv.1, if pv.2 = 0 then 1 else if pv.2 = 12 then 2 else 0)

/-- Scan of `partialInsertionSort_func`: advance `i` over an ascending
run, `for i < b && !Less(i, i-1)`. -/
def scanAscGo (l : List α) (b i : Nat) : Nat → Nat
  | 0 => i
  | fuel+1 =>
    if decide (i < b) && !(less (lget l i) (lget l (i - 1))) then
      scanAscGo l b (i + 1) fuel
    else i

/-- Left shift loop of `partialInsertionSort_func`:
`for j := i-1; j >= 1; j--`. -/
def shiftLeftGo (l : List α) (j : Nat) : Nat → List α
  | 0 => l
  | fuel+1 =>
    if decide (1 ≤ j) && less (lget l j) (lget l (j - 1)) then
      shiftLeftGo (lswap l j (j - 1)) (j - 1) fuel
    else l

/-- Right shift loop of `partialInsertionSort_func`:
`for j := i+1; j < b; j++`. -/
def shiftRightGo (l : List α) (b j : Nat) : Nat → List α
  | 0 => l
  | fuel+1 =>
    if decide (j < b) && less (lget l j) (lget l (j - 1)) then
      shiftRightGo (lswap l j (j - 1)) b (j + 1) fuel
    else l

/-- The `maxSteps = 5` loop of `partialInsertionSort_func`; returns
whether the range ended sorted, plus the (possibly mutated) slice. -/
def pisStepGo (a b : Nat) (l : List α) (i : Nat) : Nat → Bool × List α
  | 0 => (false, l)
  | steps+1 =>
    let i2 := scanAscGo less l b i (b - i + 1)
    if i2 = b then (true, l)
    else if b - a < 50 then (false, l)
    else
      let l1 := lswap l i2 (i2 - 1)
      let l2 := if 2 ≤ i2 - a then shiftLeftGo less l1 (i2 - 1) (i2 - 1) else l1
      let l3 := if 2 ≤ b - i2 then shiftRightGo less l2 b (i2 + 1) (b - i2) else l2
      pisStepGo a b l3 i2 steps

/-- `partialInsertionSort_func(data, a, b)`. -/
def partInsertionSortGo (l : List α) (a b : Nat) : Bool × List α :=
  pisStepGo less a b l (a + 1) 5

/-- Scan `for i <= j && Less(i, a)` of `partition_func`. -/
def scanLtGo (l : List α) (a j i : Nat) : Nat → Nat
  | 0 => i
  | fuel+1 =>
    if decide (i ≤ j) && less (lget l i) (lget l a) then scanLtGo l a j (i + 1) fuel
    else i

/-- Scan `for i <= j && !Less(j, a)` of `partition_func`. -/
def scanGeGo (l : List α) (a i j : Nat) : Nat → Nat
  | 0 => j
  | fuel+1 =>
    if decide (i ≤ j) && !(less (lget l j) (lget l a)) then scanGeGo l a i (j - 1) fuel
    else j

/-- Main loop of `partition_func` after the first exchange. -/
def partLoopGo (a : Nat) (l : List α) (i j : Nat) : Nat → List α × Nat
  | 0 => (l, j)
  | fuel+1 =>
    let i2 := scanLtGo less l a j i (j + 2)
    let j2 := scanGeGo less l a i2 j (j + 2)
    if j2 < i2 then (l, j2)
    else partLoopGo a (lswap l i2 j2) (i2 + 1) (j2 - 1) fuel

/-- `partition_func(data, a, b, pivot)`: returns the mutated slice, the
new pivot position, and `alreadyPartitioned`. -/
def partitionGo (l : List α) (a b pivot : Nat) : List α × Nat × Bool :=
  let l0 := lswap l a pivot
  let i0 := scanLtGo less l0 a (b - 1) (a + 1) b
  let j0 := scanGeGo less l0 a i0 (b - 1) b
  if j0 < i0 then (lswap l0 j0 a, j0, true)
  else
    let pr := partLoopGo less a (lswap l0 i0 j0) (i0 + 1) (j0 - 1) b
    (lswap pr.1 pr.2 a, pr.2, false)

/-- Scan `for i <= j && !Less(a, i)` of `partitionEqual_func`. -/
def scanNGtGo (l : List α) (a j i : Nat) : Nat → Nat
  | 0 => i
  | fuel+1 =>
    if decide (i ≤ j) && !(less (lget l a) (lget l i)) then scanNGtGo l a j (i + 1) fuel
    else i

/-- Scan `for i <= j && Less(a, j)` of `partitionEqual_func`. -/
def scanGtGo (l : List α) (a i j : Nat) : Nat → Nat
  | 0 => j
  | fuel+1 =>
    if decide (i ≤ j) && less (lget l a) (lget l j) then scanGtGo l a i (j - 1) fuel
    else j

/-- Loop of `partitionEqual_func`. -/
def peqLoopGo (a : Nat) (l : List α) (i j : Nat) : Nat → List α × Nat
  | 0 => (l, i)
  | fuel+1 =>
    let i2 := scanNGtGo less l a j i (j + 2)
    let j2 := scanGtGo less l a i2 j (j + 2)
    if j2 < i2 then (l, i2)
    else peqLoopGo a (lswap l i2 j2) (i2 + 1) (j2 - 1) fuel

/-- `partitionEqual_func(data, a, b, pivot)`. -/
def partitionEqGo (l : List α) (a b pivot : Nat) : List α × Nat :=
  peqLoopGo less a (lswap l a pivot) (a + 1) (b - 1) b

/-- `bits.Len` on a natural number. -/
def bitsLen (n : Nat) : Nat := if n = 0 then 0 else Nat.log2 n + 1

/-- One step of the `xorshift` generator of Go's sort package, on 64-bit
words. -/
def xorshiftNext (r : Nat) : Nat :=
  let r1 := (r ^^^ (r <<< 13)) % 2 ^ 64
  let r2 := r1 ^^^ (r1 >>> 17)
  (r2 ^^^ (r2 <<< 5)) % 2 ^ 64

/-- `breakPatterns_func(data, a, b)`: three pseudo-random swaps around the
middle, seeded with the range length. -/
def breakPatternsGo (l : List α) (a b : Nat) : List α :=
  let len := b - a
  if 8 ≤ len then
    let modulus := 1 <<< bitsLen len
    let idx := a + (len / 4) * 2 - 1
    let r1 := xorshiftNext len
    let o1 := if len ≤ r1 % modulus then r1 % modulus - len else r1 % modulus
    let l1 := lswap l (idx - 1) (a + o1)
    let r2 := xorshiftNext r1
    let o2 := if len ≤ r2 % modulus then r2 % modulus - len else r2 % modulus
    let l2 := lswap l1 idx (a + o2)
    let r3 := xorshiftNext r2
    let o3 := if len ≤ r3 % modulus then r3 % modulus - len else r3 % modulus
    lswap l2 (idx + 1) (a + o3)
  else l

/-- The `breakPatterns` / `limit--` step at the top of the `pdqsort_func`
loop body: applied only when the previous partitioning `!wasBalanced`.
Returns the (possibly mutated) slice and the updated `limit`. -/
def pdqPrep (l : List α) (a b limit : Nat) (wasBalanced : Bool) : List α × Nat :=
  if !wasBalanced then (breakPatternsGo l a b, limit - 1) else (l, limit)

/-- The `choosePivot` step of `pdqsort_func`, including the
decreasing-hint reversal: returns the (possibly reversed) slice, the
pivot index, and the (possibly upgraded) hint. -/
def pdqPivot (l0 : List α) (a b : Nat) : List α × Nat × Nat :=
  let cp := choosePivotGo less l0 a b
  if cp.2 = 2 then
    (reverseRangeGo l0 a (b - 1) (b - a), (b - 1) - (cp.1 - a), 1)
  else (l0, cp.1, cp.2)

/-- The conditional `partialInsertionSort` attempt of `pdqsort_func`. -/
def pdqTryPIS (l1 : List α) (a b : Nat) (wasBalanced wasPartitioned : Bool)
    (hint : Nat) : Bool × List α :=
  if wasBalanced && wasPartitioned && hint = 1 then
    partInsertionSortGo less l1 a b
  else (false, l1)

/-- `pdqsort_func(data, a, b, limit)`.  The Go loop is encoded as fuel
recursion: loop continuations keep the updated `wasBalanced` /
`wasPartitioned` flags, recursive calls on the shorter side start fresh
with both flags `true`, exactly as the local variables do in Go. -/
def pdqsortGo (l : List α) (a b limit : Nat) (wasBalanced wasPartitioned : Bool) :
    Nat → List α
  | 0 => l
  | fuel+1 =>
    if b - a ≤ 12 then insertionSortGo less l a b
    else if limit = 0 then heapSortGo less l a b
    else
      let lb := pdqPrep l a b limit wasBalanced
      let rv := pdqPivot less lb.1 a b
      let pis := pdqTryPIS less rv.1 a b wasBalanced wasPartitioned rv.2.2
      if pis.1 then pis.2
      else if decide (0 < a) && !(less (lget pis.2 (a - 1)) (lget pis.2 rv.2.1)) then
        let pe := partitionEqGo less pis.2 a b rv.2.1
        pdqsortGo pe.1 pe.2 b lb.2 wasBalanced wasPartitioned fuel
      else
        let pt := partitionGo less pis.2 a b rv.2.1
        let wasBalanced2 :=
          decide ((b - a) / 8 ≤ min (pt.2.1 - a) (b - pt.2.1))
        if pt.2.1 - a < b - pt.2.1 then
          pdqsortGo (pdqsortGo pt.1 a pt.2.1 lb.2 true true fuel)
            (pt.2.1 + 1) b lb.2 wasBalanced2 pt.2.2 fuel
        else
          pdqsortGo (pdqsortGo pt.1 (pt.2.1 + 1) b lb.2 true true fuel)
            a pt.2.1 lb.2 wasBalanced2 pt.2.2 fuel

/-- `sort.Slice(l, less)`: `pdqsort_func(data, 0, n, bits.Len(uint(n)))`.
The fuel `2n + 64` strictly dominates the number of loop iterations and
nested calls pdqsort can perform on a slice of length `n`. -/
def sortSliceGo (l : List α) : List α :=
  pdqsortGo less l 0 l.length (bitsLen l.length) true true (2 * l.length + 64)

end SortModel

/-!
## The main pipeline (src/main.go:47-145)
-/

/-- The fixed CSV header row (src/main.go:131). -/
def headerRow : List String :=
  ["Project name", "Path", "Remote repository", "Last commit date"]

/-- The CSV data row written for one record (src/main.go:133-140). -/
def toRow (p : GitProject) : List String :=
  [p.ProjectName, pathStr p.Path, p.RemoteRepo, fmtOut p.LastCommitDate]

/-- How a run of `main` ends: usage error (`os.Exit(1)` before any scan),
failure to create the CSV file (plain `return` after scanning and
sorting, exit status 0, nothing written), or a written report. -/
inductive RunOutcome where
  | usage
  | sinkFail (sorted : List GitProject)
  | wrote (rows : List (List String))

/-- Process exit status of an outcome: only the missing-directories check
calls `os.Exit(1)`; every other path returns from `main` (status 0). -/
def exitCode : RunOutcome → Nat
  | .usage => 1
  | .sinkFail _ => 0
  | .wrote _ => 0

/-- The rows written to the CSV file, if it was created. -/
def writtenRows : RunOutcome → Option (List (List String))
  | .wrote rows => some rows
  | .usage => none
  | .sinkFail _ => none

/-- `main`: require at least one `--directory`, walk all roots collecting
records, sort with `sort.Slice` under `lessGo`, then write header plus one
row per record — unless creating the CSV file fails (`createOk = false`),
in which case `main` returns with nothing written. -/
def runMain (env : FsEnv) (roots : List RootSpec) (createOk : Bool) : RunOutcome :=
  if roots.length = 0 then .usage
  else
    let sorted := sortSliceGo lessGo (collect env roots)
    if createOk then .wrote (headerRow :: sorted.map toRow) else .sinkFail sorted

/-- The rows of the report a successful run writes (empty when no report
is written). -/
def reportFor (env : FsEnv) (roots : List RootSpec) : List (List String) :=
  (writtenRows (runMain env roots true)).getD []

/-!
## Concrete inputs used by witnesses and counterexamples
-/

/-- A repository environment whose remote command takes 6s and whose log
command would take another 6s: each is individually below 10s, but their
sum exceeds the shared window. -/
def envC3 : RepoEnv :=
  ⟨⟨6, some "git@host:x.git"⟩, ⟨6, some "2024-05-15 15:00:00 +0300"⟩⟩

/-- A subprocess environment in which every repository extraction
succeeds. -/
def envOK : FsEnv := fun _ => ⟨⟨1, some "git@host:x.git"⟩, ⟨1, some "2024-05-15 15:00:00 +0300"⟩⟩

/-- A directory `a` containing `.git`, which itself contains `x/.git`:
exercises whether the walk descends into the metadata directory. -/
def treeC4 : FSTree :=
  .dir "a" (.cons (.dir ".git"
    (.cons (.dir "x" (.cons (.dir ".git" .nil) .nil)) .nil)) .nil)

/-- An environment that fails extraction (log command exits non-zero) at
`/r/bad` and succeeds everywhere else. -/
def envC2 : FsEnv := fun p =>
  if p = ["r", "bad"] then ⟨⟨1, some "git@host:x.git"⟩, ⟨1, none⟩⟩
  else ⟨⟨1, some "git@host:x.git"⟩, ⟨1, some "2024-05-15 15:00:00 +0300"⟩⟩

/-- Root `/r` containing repositories `bad` and `good`. -/
def rootC2 : RootSpec :=
  ⟨[], .dir "r" (.cons (.dir "bad" (.cons (.dir ".git" .nil) .nil))
    (.cons (.dir "good" (.cons (.dir ".git" .nil) .nil)) .nil))⟩

/-- An environment whose remote command fails (without timing out) while
the log command succeeds. -/
def envC6 : RepoEnv := ⟨⟨1, none⟩, ⟨1, some "2024-05-15 15:00:00 +0300"⟩⟩

/-- A record with an empty remote, used to exhibit sort instability:
records sharing `name` compare equal under `lessGo`, and `id` (the only
path segment) makes them distinguishable. -/
def recC5 (name id : String) : GitProject := ⟨[id], name, "", default⟩

/-- Thirteen records in discovery order: twelve compare-equal records
named `a` and one record named `b` in position 11. -/
def exC5 : List GitProject :=
  [recC5 "a" "p00", recC5 "a" "p01", recC5 "a" "p02", recC5 "a" "p03",
   recC5 "a" "p04", recC5 "a" "p05", recC5 "a" "p06", recC5 "a" "p07",
   recC5 "a" "p08", recC5 "a" "p09", recC5 "a" "p10", recC5 "b" "p11",
   recC5 "a" "p12"]

/-- A root `/home/proj` that is a repository. -/
def rootC8 : RootSpec := ⟨["home"], .dir "proj" (.cons (.dir ".git" .nil) .nil)⟩

/-!
## Helper lemmas
-/

theorem pathStr_ne_empty (segs : List String) : pathStr segs ≠ "" := by
  unfold pathStr
  intro h
  have hl := congrArg String.length h
  simp [String.length_append] at hl
  exact absurd hl.1 (by decide)

theorem baseSeg_ne_empty {segs : List String} (h : ∀ s ∈ segs, s ≠ "") :
    baseSeg segs ≠ "" := by
  unfold baseSeg
  cases hg : segs.getLast? with
  | none => decide
  | some a =>
    simp only [Option.getD_some]
    exact h a (List.mem_of_mem_getLast? hg)

theorem toDigit_le_nine {ch : Char} (h : isDig ch = true) : toDigit ch ≤ 9 := by
  unfold isDig at h
  unfold toDigit
  simp only [Bool.and_eq_true, decide_eq_true_eq] at h
  omega

theorem isDig_digitChar {d : Nat} (h : d ≤ 9) : isDig (digitChar d) = true := by
  interval_cases d <;> decide

theorem toDigit_digitChar {d : Nat} (h : d ≤ 9) : toDigit (digitChar d) = d := by
  interval_cases d <;> decide

theorem daysIn_le_31 (m y : Nat) : daysIn m y ≤ 31 := by
  unfold daysIn
  split
  · split <;> omega
  · split <;> omega

/-- A successful run of the git-date parse only produces component-valid
dates with a four-digit year. -/
theorem parseGitDateL_valid {l : List Char} {c : DateTime}
    (h : parseGitDateL l = some c) : ValidDate c := by
  unfold parseGitDateL at h
  split at h
  · split at h
    · rename_i hg
      dsimp only [] at h
      split at h
      · rename_i hr
        injection h with h
        subst h
        simp only [Bool.and_eq_true] at hg
        refine ⟨hr, ?_⟩
        have h1 := toDigit_le_nine (hg.1.1.1.1.1.1.1.1.1.1.1.1.1.1.1.1.1.1.2)
        have h2 := toDigit_le_nine (hg.1.1.1.1.1.1.1.1.1.1.1.1.1.1.1.1.1.2)
        have h3 := toDigit_le_nine (hg.1.1.1.1.1.1.1.1.1.1.1.1.1.1.1.1.2)
        have h4 := toDigit_le_nine (hg.1.1.1.1.1.1.1.1.1.1.1.1.1.1.1.2)
        simp only []
        omega
      · exact absurd h (by simp)
    · exact absurd h (by simp)
  · exact absurd h (by simp)

/-- Formatting a component-valid date with the output layout and parsing
the result with the same layout recovers the six wall-clock components
and zeroes the offset. -/
theorem roundTripOfValid (c : DateTime) (h : ValidDate c) :
    parsePlain (fmtOut c) =
      some ⟨c.year, c.month, c.day, c.hour, c.minute, c.second, false, 0, 0⟩ := by
  obtain ⟨hr, hy⟩ := h
  have hrk := hr
  unfold rangesOK at hrk
  simp only [Bool.and_eq_true, decide_eq_true_eq] at hrk
  have hm : c.month ≤ 12 := hrk.1.1.1.1.1.2
  have hd : c.day ≤ 31 := le_trans hrk.1.1.1.2 (daysIn_le_31 _ _)
  have hh : c.hour ≤ 23 := hrk.1.1.2
  have hn : c.minute ≤ 59 := hrk.1.2
  have he : c.second ≤ 59 := hrk.2
  have b1 : c.year / 1000 ≤ 9 := by omega
  have b2 : c.year / 100 % 10 ≤ 9 := by omega
  have b3 : c.year / 10 % 10 ≤ 9 := by omega
  have b4 : c.year % 10 ≤ 9 := by omega
  have mb1 : c.month / 10 ≤ 9 := by omega
  have mb2 : c.month % 10 ≤ 9 := by omega
  have db1 : c.day / 10 ≤ 9 := by omega
  have db2 : c.day % 10 ≤ 9 := by omega
  have hb1 : c.hour / 10 ≤ 9 := by omega
  have hb2 : c.hour % 10 ≤ 9 := by omega
  have nb1 : c.minute / 10 ≤ 9 := by omega
  have nb2 : c.minute % 10 ≤ 9 := by omega
  have eb1 : c.second / 10 ≤ 9 := by omega
  have eb2 : c.second % 10 ≤ 9 := by omega
  unfold parsePlain fmtOut fmtOutL pad4 pad2
  simp only [List.cons_append, List.nil_append]
  simp only [parsePlainL]
  rw [if_pos (by
    simp [isDig_digitChar, b1, b2, b3, b4, mb1, mb2, db1, db2, hb1, hb2, nb1,
      nb2, eb1, eb2])]
  simp only [toDigit_digitChar b1, toDigit_digitChar b2, toDigit_digitChar b3,
    toDigit_digitChar b4, toDigit_digitChar mb1, toDigit_digitChar mb2,
    toDigit_digitChar db1, toDigit_digitChar db2, toDigit_digitChar hb1,
    toDigit_digitChar hb2, toDigit_digitChar nb1, toDigit_digitChar nb2,
    toDigit_digitChar eb1, toDigit_digitChar eb2]
  have hy2 : c.year / 1000 * 1000 + c.year / 100 % 10 * 100 + c.year / 10 % 10 * 10 +
      c.year % 10 = c.year := by omega
  have hm2 : c.month / 10 * 10 + c.month % 10 = c.month := by omega
  have hd2 : c.day / 10 * 10 + c.day % 10 = c.day := by omega
  have hh2 : c.hour / 10 * 10 + c.hour % 10 = c.hour := by omega
  have hn2 : c.minute / 10 * 10 + c.minute % 10 = c.minute := by omega
  have he2 : c.second / 10 * 10 + c.second % 10 = c.second := by omega
  rw [hy2, hm2, hd2, hh2, hn2, he2]
  have hrt : rangesOK ⟨c.year, c.month, c.day, c.hour, c.minute, c.second,
      false, 0, 0⟩ = true := by
    unfold rangesOK
    simp only [Bool.and_eq_true, decide_eq_true_eq]
    exact hrk
  rw [if_pos hrt]

/-- A string never compares strictly below itself. -/
theorem strLtB_self : ∀ (l : List Char), strLtB l l = false := by
  intro l
  induction l with
  | nil => rfl
  | cons a as ih =>
    rw [strLtB]
    simp [ih]

theorem strLt_self (s : String) : strLt s s = false := strLtB_self s.data

/-- `strLtB` is trichotomous: if neither list compares below the other,
they are equal. -/
theorem strLtB_eq_of_both_false :
    ∀ {as bs : List Char}, strLtB as bs = false → strLtB bs as = false → as = bs := by
  intro as
  induction as with
  | nil =>
    intro bs h1 _
    cases bs with
    | nil => rfl
    | cons b bs => simp [strLtB] at h1
  | cons a as ih =>
    intro bs h1 h2
    cases bs with
    | nil => simp [strLtB] at h2
    | cons b bs =>
      rw [strLtB] at h1 h2
      by_cases hab : a.toNat < b.toNat
      · rw [if_pos hab] at h1
        exact absurd h1 (by simp)
      · by_cases hba : b.toNat < a.toNat
        · rw [if_pos hba] at h2
          exact absurd h2 (by simp)
        · rw [if_neg hab, if_neg hba] at h1
          have hc : a = b := Char.ext (UInt32.ext (by
            simp only [Char.toNat] at hab hba
            omega))
          rw [hc, ih h1 (by rw [if_neg hba, if_neg hab] at h2; exact h2)]

theorem strLt_eq_of_both_false {x y : String}
    (h1 : strLt x y = false) (h2 : strLt y x = false) : x = y :=
  String.ext (strLtB_eq_of_both_false h1 h2)

/-!
## Lemmas about the sorting algorithm: `sort.Slice` only rearranges —
same length, and every output element is an input element.
-/

section SortLemmas

variable {α : Type} [Inhabited α] (less : α → α → Bool)

omit [Inhabited α] in
theorem keeps_refl (l : List α) : KeepsElems l l := ⟨rfl, fun _ hx => hx⟩

omit [Inhabited α] in
theorem keeps_trans {l3 l2 l1 : List α} (h2 : KeepsElems l3 l2)
    (h1 : KeepsElems l2 l1) : KeepsElems l3 l1 :=
  ⟨h2.1.trans h1.1, fun x hx => h1.2 x (h2.2 x hx)⟩

theorem lget_mem {l : List α} {i : Nat} (h : i < l.length) : lget l i ∈ l := by
  unfold lget
  rw [List.getD_eq_getElem l default h]
  exact List.getElem_mem h

theorem keeps_lswap (l : List α) (i j : Nat) : KeepsElems (lswap l i j) l := by
  unfold lswap
  split
  · rename_i hb
    refine ⟨by simp [List.length_set], ?_⟩
    intro x hx
    rcases List.mem_or_eq_of_mem_set hx with h1 | h1
    · rcases List.mem_or_eq_of_mem_set h1 with h2 | h2
      · exact h2
      · rw [h2]; exact lget_mem hb.2
    · rw [h1]; exact lget_mem hb.1
  · exact keeps_refl l

theorem insShift_keeps (l : List α) (j a fuel : Nat) :
    KeepsElems (insShift less l j a fuel) l := by
  induction fuel generalizing l j with
  | zero => exact keeps_refl l
  | succ n ih =>
    rw [insShift]
    split
    · exact keeps_trans (ih _ _) (keeps_lswap _ _ _)
    · exact keeps_refl l

theorem insLoop_keeps (a b : Nat) (l : List α) (i fuel : Nat) :
    KeepsElems (insLoop less a b l i fuel) l := by
  induction fuel generalizing l i with
  | zero => exact keeps_refl l
  | succ n ih =>
    rw [insLoop]
    split
    · exact keeps_trans (ih _ _) (insShift_keeps less _ _ _ _)
    · exact keeps_refl l

theorem insertionSortGo_keeps (l : List α) (a b : Nat) :
    KeepsElems (insertionSortGo less l a b) l :=
  insLoop_keeps less a b l (a + 1) (b - a)

theorem siftDownGo_keeps (l : List α) (root hi first fuel : Nat) :
    KeepsElems (siftDownGo less l root hi first fuel) l := by
  induction fuel generalizing l root with
  | zero => exact keeps_refl l
  | succ n ih =>
    rw [siftDownGo]
    lift_lets
    extract_lets child
    split
    · exact keeps_refl l
    · split
      · exact keeps_refl l
      · exact keeps_trans (ih _ _) (keeps_lswap _ _ _)

theorem heapBuildGo_keeps (hi first : Nat) (l : List α) (i : Nat) :
    KeepsElems (heapBuildGo less hi first l i) l := by
  induction i generalizing l with
  | zero => exact siftDownGo_keeps less l 0 hi first hi
  | succ n ih =>
    rw [heapBuildGo]
    exact keeps_trans (ih _) (siftDownGo_keeps less l (n + 1) hi first hi)

theorem heapPopGo_keeps (first : Nat) (l : List α) (i : Nat) :
    KeepsElems (heapPopGo less first l i) l := by
  induction i generalizing l with
  | zero =>
    exact keeps_trans (siftDownGo_keeps less _ 0 0 first 1) (keeps_lswap _ _ _)
  | succ n ih =>
    rw [heapPopGo]
    exact keeps_trans (ih _)
      (keeps_trans (siftDownGo_keeps less _ 0 (n + 1) first (n + 2)) (keeps_lswap _ _ _))

theorem heapSortGo_keeps (l : List α) (a b : Nat) :
    KeepsElems (heapSortGo less l a b) l := by
  unfold heapSortGo
  split
  · exact keeps_refl l
  · exact keeps_trans (heapPopGo_keeps less _ _ _) (heapBuildGo_keeps less _ _ _ _)

theorem reverseRangeGo_keeps (l : List α) (i j fuel : Nat) :
    KeepsElems (reverseRangeGo l i j fuel) l := by
  induction fuel generalizing l i j with
  | zero => exact keeps_refl l
  | succ n ih =>
    rw [reverseRangeGo]
    split
    · exact keeps_trans (ih _ _ _) (keeps_lswap _ _ _)
    · exact keeps_refl l

theorem shiftLeftGo_keeps (l : List α) (j fuel : Nat) :
    KeepsElems (shiftLeftGo less l j fuel) l := by
  induction fuel generalizing l j with
  | zero => exact keeps_refl l
  | succ n ih =>
    rw [shiftLeftGo]
    split
    · exact keeps_trans (ih _ _) (keeps_lswap _ _ _)
    · exact keeps_refl l

theorem shiftRightGo_keeps (l : List α) (b j fuel : Nat) :
    KeepsElems (shiftRightGo less l b j fuel) l := by
  induction fuel generalizing l j with
  | zero => exact keeps_refl l
  | succ n ih =>
    rw [shiftRightGo]
    split
    · exact keeps_trans (ih _ _) (keeps_lswap _ _ _)
    · exact keeps_refl l

theorem pisStepGo_keeps (a b : Nat) (l : List α) (i steps : Nat) :
    KeepsElems (pisStepGo less a b l i steps).2 l := by
  induction steps generalizing l i with
  | zero => exact keeps_refl l
  | succ n ih =>
    rw [pisStepGo]
    split
    · exact keeps_refl l
    · split
      · exact keeps_refl l
      · refine keeps_trans (ih _ _) ?_
        split <;> split <;>
          first
            | exact keeps_trans (shiftRightGo_keeps less _ _ _ _)
                (keeps_trans (shiftLeftGo_keeps less _ _ _) (keeps_lswap _ _ _))
            | exact keeps_trans (shiftRightGo_keeps less _ _ _ _) (keeps_lswap _ _ _)
            | exact keeps_trans (shiftLeftGo_keeps less _ _ _) (keeps_lswap _ _ _)
            | exact keeps_lswap _ _ _

theorem partInsertionSortGo_keeps (l : List α) (a b : Nat) :
    KeepsElems (partInsertionSortGo less l a b).2 l :=
  pisStepGo_keeps less a b l (a + 1) 5

theorem partLoopGo_keeps (a : Nat) (l : List α) (i j fuel : Nat) :
    KeepsElems (partLoopGo less a l i j fuel).1 l := by
  induction fuel generalizing l i j with
  | zero => exact keeps_refl l
  | succ n ih =>
    rw [partLoopGo]
    split
    · exact keeps_refl l
    · exact keeps_trans (ih _ _ _) (keeps_lswap _ _ _)

theorem partitionGo_keeps (l : List α) (a b pivot : Nat) :
    KeepsElems (partitionGo less l a b pivot).1 l := by
  unfold partitionGo
  lift_lets
  extract_lets l0 i0 j0 pr
  split
  · exact keeps_trans (keeps_lswap l0 j0 a) (keeps_lswap l a pivot)
  · exact keeps_trans (keeps_lswap pr.1 pr.2 a)
      (keeps_trans (partLoopGo_keeps less a (lswap l0 i0 j0) (i0 + 1) (j0 - 1) b)
        (keeps_trans (keeps_lswap l0 i0 j0) (keeps_lswap l a pivot)))

theorem peqLoopGo_keeps (a : Nat) (l : List α) (i j fuel : Nat) :
    KeepsElems (peqLoopGo less a l i j fuel).1 l := by
  induction fuel generalizing l i j with
  | zero => exact keeps_refl l
  | succ n ih =>
    rw [peqLoopGo]
    split
    · exact keeps_refl l
    · exact keeps_trans (ih _ _ _) (keeps_lswap _ _ _)

theorem partitionEqGo_keeps (l : List α) (a b pivot : Nat) :
    KeepsElems (partitionEqGo less l a b pivot).1 l :=
  keeps_trans (peqLoopGo_keeps less a _ (a + 1) (b - 1) b) (keeps_lswap _ _ _)

theorem breakPatternsGo_keeps (l : List α) (a b : Nat) :
    KeepsElems (breakPatternsGo l a b) l := by
  unfold breakPatternsGo
  lift_lets
  extract_lets len modulus idx r1 o1 l1 r2 o2 l2 r3 o3
  split
  · exact keeps_trans (keeps_lswap l2 (idx + 1) (a + o3))
      (keeps_trans (keeps_lswap l1 idx (a + o2))
        (keeps_lswap l (idx - 1) (a + o1)))
  · exact keeps_refl l

theorem pdqPrep_keeps (l : List α) (a b limit : Nat) (wb : Bool) :
    KeepsElems (pdqPrep l a b limit wb).1 l := by
  unfold pdqPrep
  split
  · exact breakPatternsGo_keeps l a b
  · exact keeps_refl l

theorem pdqPivot_keeps (l0 : List α) (a b : Nat) :
    KeepsElems (pdqPivot less l0 a b).1 l0 := by
  unfold pdqPivot
  lift_lets
  extract_lets cp
  split
  · exact reverseRangeGo_keeps _ _ _ _
  · exact keeps_refl _

theorem pdqTryPIS_keeps (l1 : List α) (a b : Nat) (wb wp : Bool) (hint : Nat) :
    KeepsElems (pdqTryPIS less l1 a b wb wp hint).2 l1 := by
  unfold pdqTryPIS
  split
  · exact partInsertionSortGo_keeps less _ _ _
  · exact keeps_refl _

theorem pdqsortGo_keeps (l : List α) (a b limit : Nat)
    (wb wp : Bool) (fuel : Nat) :
    KeepsElems (pdqsortGo less l a b limit wb wp fuel) l := by
  induction fuel generalizing l a b limit wb wp with
  | zero => exact keeps_refl l
  | succ n ih =>
    rw [pdqsortGo]
    lift_lets
    extract_lets lb rv pis pe pt wasBalanced2
    have hbase : KeepsElems pis.2 l :=
      keeps_trans (pdqTryPIS_keeps less rv.1 a b wb wp rv.2.2)
        (keeps_trans (pdqPivot_keeps less lb.1 a b)
          (pdqPrep_keeps l a b limit wb))
    split
    · exact insertionSortGo_keeps less l a b
    · split
      · exact heapSortGo_keeps less l a b
      · split
        · exact hbase
        · split
          · exact keeps_trans (ih pe.1 pe.2 b lb.2 wb wp)
              (keeps_trans (partitionEqGo_keeps less pis.2 a b rv.2.1) hbase)
          · split
            · exact keeps_trans
                (ih (pdqsortGo less pt.1 a pt.2.1 lb.2 true true n)
                  (pt.2.1 + 1) b lb.2 wasBalanced2 pt.2.2)
                (keeps_trans (ih pt.1 a pt.2.1 lb.2 true true)
                  (keeps_trans (partitionGo_keeps less pis.2 a b rv.2.1) hbase))
            · exact keeps_trans
                (ih (pdqsortGo less pt.1 (pt.2.1 + 1) b lb.2 true true n)
                  a pt.2.1 lb.2 wasBalanced2 pt.2.2)
                (keeps_trans (ih pt.1 (pt.2.1 + 1) b lb.2 true true)
                  (keeps_trans (partitionGo_keeps less pis.2 a b rv.2.1) hbase))

theorem sortSliceGo_keeps (l : List α) : KeepsElems (sortSliceGo less l) l :=
  pdqsortGo_keeps less l 0 l.length (bitsLen l.length) true true (2 * l.length + 64)

end SortLemmas


/-!
## Claims
-/

/-- C1: the sort comparator is the exact tiered pairwise rule — for every
pair of records with non-empty remote URLs it orders by remote URL
lexicographically ascending with ties broken by commit time descending
(most recent first), and for every pair where at least one remote URL is
empty it orders by name lexicographically ascending. -/
theorem C1_comparator_is_tiered_rule (x y : GitProject) :
    lessGo x y = lessSpecTiered x y := by
  unfold lessGo lessSpecTiered DateTime.after
  split
  · by_cases h1 : strLt x.RemoteRepo y.RemoteRepo = true
    · have hne : x.RemoteRepo ≠ y.RemoteRepo := fun he => by
        rw [he, strLt_self] at h1
        exact Bool.false_ne_true h1
      rw [if_neg hne, if_pos h1, h1]
    · by_cases h2 : strLt y.RemoteRepo x.RemoteRepo = true
      · have hne : x.RemoteRepo ≠ y.RemoteRepo := fun he => by
          rw [he, strLt_self] at h2
          exact Bool.false_ne_true h2
        rw [if_neg hne, if_neg h1, if_pos h2]
        exact Bool.not_eq_true _ ▸ h1
      · have heq : x.RemoteRepo = y.RemoteRepo :=
          strLt_eq_of_both_false (Bool.not_eq_true _ ▸ h1) (Bool.not_eq_true _ ▸ h2)
        rw [if_pos heq, if_neg h1, if_neg h2]
  · rfl

/-- C7: for every successfully parsed `lastCommitTime`, formatting it with
the output layout `YYYY-MM-DD HH:MM:SS` and re-parsing the result
preserves the date and time-of-day components, while the timezone offset
is dropped (zeroed) — the round-trip is lossy only in the offset. -/
theorem C7_format_reparse_drops_offset (s : String) (c : DateTime)
    (h : parseGitDate s = some c) :
    parsePlain (fmtOut c) =
      some ⟨c.year, c.month, c.day, c.hour, c.minute, c.second, false, 0, 0⟩ :=
  roundTripOfValid c (parseGitDateL_valid h)

/-- A record produced by `getGitInfo` always carries a date obtained from
a successful parse, hence component-valid. -/
theorem getGitInfo_ok_valid {e : RepoEnv} {r : String} {dd : DateTime}
    (h : getGitInfo e = .ok (r, dd)) : ValidDate dd := by
  unfold getGitInfo at h
  split at h
  · exact absurd h (by simp)
  · dsimp only [] at h
    split at h
    · exact absurd h (by simp)
    · split at h
      · exact absurd h (by simp)
      · split at h
        · rename_i d hp
          simp only [Except.ok.injEq, Prod.mk.injEq] at h
          rw [← h.2]
          exact parseGitDateL_valid hp
        · exact absurd h (by simp)

mutual

/-- Every record the walk of one tree produces comes from a successful
extraction at its own recorded path, with the name taken from the path's
last segment. -/
theorem walkT_sound (env : FsEnv) (par : List String) (t : FSTree) :
    ∀ rec ∈ (walkT env par t).2,
      getGitInfo (env rec.Path) = .ok (rec.RemoteRepo, rec.LastCommitDate) ∧
      rec.ProjectName = baseSeg rec.Path := by
  cases t with
  | file n =>
    intro rec h
    simp [walkT] at h
  | dir n ch =>
    intro rec h
    rw [walkT] at h
    dsimp only [] at h
    rcases List.mem_append.mp h with hh | hs
    · split at hh
      · split at hh
        · rename_i hg
          have he := List.mem_singleton.mp hh
          subst he
          exact ⟨hg, rfl⟩
        · simp at hh
      · simp at hh
    · exact walkL_sound env (par ++ [n]) ch rec hs

theorem walkL_sound (env : FsEnv) (par : List String) (ts : FSTreeList) :
    ∀ rec ∈ (walkL env par ts).2,
      getGitInfo (env rec.Path) = .ok (rec.RemoteRepo, rec.LastCommitDate) ∧
      rec.ProjectName = baseSeg rec.Path := by
  cases ts with
  | nil =>
    intro rec h
    simp [walkL] at h
  | cons t ts =>
    intro rec h
    rw [walkL] at h
    dsimp only [] at h
    rcases List.mem_append.mp h with h1 | h2
    · exact walkT_sound env par t rec h1
    · exact walkL_sound env par ts rec h2

end

mutual

/-- In a tree whose directory names are non-empty, started from a parent
path with non-empty segments, every produced record's path has only
non-empty segments. -/
theorem walkT_names (env : FsEnv) (par : List String) (t : FSTree)
    (hw : FSTree.dirNamesOK t = true) (hp : ∀ s ∈ par, s ≠ "") :
    ∀ rec ∈ (walkT env par t).2, ∀ s ∈ rec.Path, s ≠ "" := by
  cases t with
  | file n =>
    intro rec h
    simp [walkT] at h
  | dir n ch =>
    rw [FSTree.dirNamesOK] at hw
    simp only [Bool.and_eq_true, decide_eq_true_eq] at hw
    intro rec h
    rw [walkT] at h
    dsimp only [] at h
    rcases List.mem_append.mp h with hh | hs
    · split at hh
      · split at hh
        · have he := List.mem_singleton.mp hh
          subst he
          exact hp
        · simp at hh
      · simp at hh
    · refine walkL_names env (par ++ [n]) ch hw.2 ?_ rec hs
      intro s hsm
      rcases List.mem_append.mp hsm with h1 | h2
      · exact hp s h1
      · rw [List.mem_singleton.mp h2]
        exact hw.1

theorem walkL_names (env : FsEnv) (par : List String) (ts : FSTreeList)
    (hw : FSTreeList.dirNamesOK ts = true) (hp : ∀ s ∈ par, s ≠ "") :
    ∀ rec ∈ (walkL env par ts).2, ∀ s ∈ rec.Path, s ≠ "" := by
  cases ts with
  | nil =>
    intro rec h
    simp [walkL] at h
  | cons t ts =>
    rw [FSTreeList.dirNamesOK] at hw
    simp only [Bool.and_eq_true] at hw
    intro rec h
    rw [walkL] at h
    dsimp only [] at h
    rcases List.mem_append.mp h with h1 | h2
    · exact walkT_names env par t hw.1 hp rec h1
    · exact walkL_names env par ts hw.2 hp rec h2

end

/-- Soundness transported to the whole multi-root collection. -/
theorem collect_sound (env : FsEnv) (roots : List RootSpec) :
    ∀ rec ∈ collect env roots,
      getGitInfo (env rec.Path) = .ok (rec.RemoteRepo, rec.LastCommitDate) ∧
      rec.ProjectName = baseSeg rec.Path := by
  intro rec h
  unfold collect at h
  rw [List.mem_flatten] at h
  obtain ⟨l, hl, hm⟩ := h
  rw [List.mem_map] at hl
  obtain ⟨r, hr, hrl⟩ := hl
  subst hrl
  exact walkT_sound env r.parent r.tree rec hm

/-- C2: if extraction fails at a path (timeout, command failure, or parse
failure), no record with that path is collected (hence none is emitted);
moreover every collected record comes from a successful extraction with a
parse-valid commit time — no partial or zero-dated record exists. -/
theorem C2_failed_extraction_never_reported (env : FsEnv) (roots : List RootSpec)
    (p : List String) (err : GitError) (h : getGitInfo (env p) = .error err) :
    (∀ rec ∈ collect env roots, rec.Path ≠ p) ∧
    (∀ rec ∈ collect env roots,
      getGitInfo (env rec.Path) = .ok (rec.RemoteRepo, rec.LastCommitDate) ∧
      ValidDate rec.LastCommitDate) := by
  constructor
  · intro rec hm hp
    obtain ⟨hok, _⟩ := collect_sound env roots rec hm
    rw [hp, h] at hok
    exact absurd hok (by simp)
  · intro rec hm
    obtain ⟨hok, _⟩ := collect_sound env roots rec hm
    exact ⟨hok, getGitInfo_ok_valid hok⟩

/-- C2 witness: with the log command failing at `/r/bad` and succeeding
at `/r/good`, the collection of the `/r` root contains no record for
`/r/bad` (it does contain one for `/r/good`). -/
theorem C2_failed_extraction_never_reported_witness :
    getGitInfo (envC2 ["r", "bad"]) = .error .logFailed ∧
    (∀ rec ∈ collect envC2 [rootC2], rec.Path ≠ ["r", "bad"]) ∧
    (∃ rec ∈ collect envC2 [rootC2], rec.Path = ["r", "good"]) :=
  ⟨by decide,
   (C2_failed_extraction_never_reported envC2 [rootC2] ["r", "bad"]
     .logFailed (by decide)).1,
   by decide⟩

/-- C4 counterexample: in `/a/.git/x/.git`, the walk callback returns
`nil` (not `filepath.SkipDir`) for the `.git` directory, so the walker
descends into the metadata directory's contents — it visits
`/a/.git/x` and even records a repository rooted there. -/
theorem C4_counterexample :
    (["a", ".git", "x"] ∈ (walkT envOK [] treeC4).1) ∧
    (∃ rec ∈ (walkT envOK [] treeC4).2, rec.Path = ["a", ".git", "x"]) := by
  decide

/-- C4 (amended): on encountering a directory named `.git`, the walker
treats its parent as a repository root and attempts extraction (appending
a record on success), but it still descends into the metadata
subdirectory's contents: every path visited inside the `.git` directory
is visited by the walk. -/
theorem C4_git_dir_extracts_but_still_descends (env : FsEnv)
    (par : List String) (ch : FSTreeList) (r : String) (d : DateTime)
    (h : getGitInfo (env par) = .ok (r, d)) :
    GitProject.mk par (baseSeg par) r d ∈ (walkT env par (.dir ".git" ch)).2 ∧
    ∀ v ∈ (walkL env (par ++ [".git"]) ch).1, v ∈ (walkT env par (.dir ".git" ch)).1 := by
  constructor
  · rw [walkT]
    dsimp only []
    rw [if_pos rfl, h]
    exact List.mem_append_left _ (List.mem_singleton.mpr rfl)
  · intro v hv
    rw [walkT]
    dsimp only []
    exact List.mem_cons_of_mem _ hv

/-- C4 witness: the amended behaviour at the repository `/a` with a
successful extraction. -/
theorem C4_git_dir_extracts_but_still_descends_witness :
    getGitInfo (envOK ["a"]) =
      .ok ("git@host:x.git", ⟨2024, 5, 15, 15, 0, 0, false, 3, 0⟩) ∧
    GitProject.mk ["a"] (baseSeg ["a"]) "git@host:x.git"
      ⟨2024, 5, 15, 15, 0, 0, false, 3, 0⟩ ∈
      (walkT envOK ["a"] (.dir ".git" .nil)).2 :=
  ⟨by decide,
   (C4_git_dir_extracts_but_still_descends envOK ["a"] .nil _ _ (by decide)).1⟩

/-- Path well-formedness (non-empty segments) transported to the whole
multi-root collection. -/
theorem collect_names (env : FsEnv) (roots : List RootSpec)
    (hwf : ∀ r ∈ roots, (∀ s ∈ r.parent, s ≠ "") ∧ FSTree.dirNamesOK r.tree = true) :
    ∀ rec ∈ collect env roots, ∀ s ∈ rec.Path, s ≠ "" := by
  intro rec h
  unfold collect at h
  rw [List.mem_flatten] at h
  obtain ⟨l, hl, hm⟩ := h
  rw [List.mem_map] at hl
  obtain ⟨r, hr, hrl⟩ := hl
  subst hrl
  exact walkT_names env r.parent r.tree (hwf r hr).2 (hwf r hr).1 rec hm

/-- C8: every record appended to the collection has a non-empty path, a
non-empty name equal to the final segment of its path, a commit time
obtained from a successful parse (hence valid), and a `RemoteRepo` that
is a plain string (the field's type; possibly zero-length); and records
are not mutated afterwards — every data row of the written report is the
verbatim rendering of some collected record. -/
theorem C8_record_invariants (env : FsEnv) (roots : List RootSpec)
    (hwf : ∀ r ∈ roots, (∀ s ∈ r.parent, s ≠ "") ∧ FSTree.dirNamesOK r.tree = true) :
    (∀ rec ∈ collect env roots,
        pathStr rec.Path ≠ "" ∧
        rec.ProjectName = baseSeg rec.Path ∧
        rec.ProjectName ≠ "" ∧
        getGitInfo (env rec.Path) = .ok (rec.RemoteRepo, rec.LastCommitDate) ∧
        ValidDate rec.LastCommitDate) ∧
    (∀ row ∈ (reportFor env roots).drop 1,
        ∃ rec ∈ collect env roots, row = toRow rec) := by
  constructor
  · intro rec hm
    obtain ⟨hok, hname⟩ := collect_sound env roots rec hm
    have hnames := collect_names env roots hwf rec hm
    refine ⟨pathStr_ne_empty _, hname, ?_, hok, getGitInfo_ok_valid hok⟩
    rw [hname]
    exact baseSeg_ne_empty hnames
  · intro row hrow
    unfold reportFor runMain at hrow
    by_cases hroots : roots.length = 0
    · rw [if_pos hroots] at hrow
      simp [writtenRows] at hrow
    · rw [if_neg hroots] at hrow
      dsimp only [] at hrow
      rw [if_pos rfl] at hrow
      simp only [writtenRows, Option.getD_some, List.drop_succ_cons,
        List.drop_zero] at hrow
      obtain ⟨rec, hrec, hrw⟩ := List.mem_map.mp hrow
      exact ⟨rec, (sortSliceGo_keeps lessGo _).2 rec hrec, hrw.symm⟩

/-- C8 witness: the invariants at the concrete root `/home/proj` with a
successful extraction everywhere. -/
theorem C8_record_invariants_witness :
    (∀ r ∈ [rootC8], (∀ s ∈ r.parent, s ≠ "") ∧ FSTree.dirNamesOK r.tree = true) ∧
    (∀ rec ∈ collect envOK [rootC8],
        pathStr rec.Path ≠ "" ∧
        rec.ProjectName = baseSeg rec.Path ∧
        rec.ProjectName ≠ "" ∧
        getGitInfo (envOK rec.Path) = .ok (rec.RemoteRepo, rec.LastCommitDate) ∧
        ValidDate rec.LastCommitDate) :=
  ⟨by decide, (C8_record_invariants envOK [rootC8] (by decide)).1⟩

/-- C5 counterexample: `sort.Slice` (pdqsort) is not stable.  In the
thirteen-record input `exC5`, the records at positions 0 and 1 compare
equal under the comparator (both directions `false`), position 0 comes
first in discovery order, yet in the sorted output the record from
position 1 precedes the one from position 0. -/
theorem C5_sort_not_stable_counterexample :
    lessGo (recC5 "a" "p00") (recC5 "a" "p01") = false ∧
    lessGo (recC5 "a" "p01") (recC5 "a" "p00") = false ∧
    List.indexOf (recC5 "a" "p00") exC5 < List.indexOf (recC5 "a" "p01") exC5 ∧
    List.indexOf (recC5 "a" "p01") (sortSliceGo lessGo exC5) <
      List.indexOf (recC5 "a" "p00") (sortSliceGo lessGo exC5) := by
  decide

/-- C5 (amended): the sort is deterministic (a pure function of the
collected sequence) and only rearranges — the output has the same length
and consists of input records — but records that compare equal are not
guaranteed to keep their discovery order. -/
theorem C5_sort_deterministic_rearrangement (l : List GitProject) :
    (sortSliceGo lessGo l).length = l.length ∧
    ∀ x ∈ sortSliceGo lessGo l, x ∈ l :=
  sortSliceGo_keeps lessGo l

/-- C3 counterexample: with a 6-second remote command and a 6-second log
command, the code times the log command out (the 10-second window is
shared and 6+6 exceeds it), while the fresh-window behaviour the claim
describes would let the extraction succeed. -/
theorem C3_counterexample :
    getGitInfo envC3 = .error .logTimeout ∧
    getGitInfoFresh envC3 =
      .ok ("git@host:x.git", ⟨2024, 5, 15, 15, 0, 0, false, 3, 0⟩) := by
  constructor
  · rfl
  · rfl

/-- C3 (amended): both git invocations share the single 10-second window
created when the extraction starts; provided the remote command finished
inside the window, the log invocation is cut off exactly when the
cumulative running time of both commands reaches 10 seconds — it does not
get a fresh 10-second budget of its own. -/
theorem C3_log_timeout_shares_window (e : RepoEnv) (h : e.remote.dur < 10) :
    getGitInfo e = .error .logTimeout ↔ 10 ≤ e.remote.dur + e.log.dur := by
  unfold getGitInfo
  rw [if_neg (by omega)]
  dsimp only []
  by_cases h2 : 10 ≤ e.remote.dur + e.log.dur
  · simp [h2]
  · rw [if_neg h2]
    cases hl : e.log.out with
    | none => simp [h2]
    | some s =>
      cases hp : parseGitDate (trimGo s) with
      | none => simp [hp, h2]
      | some d => simp [hp, h2]

/-- C3 witness: the shared-window characterisation applied to the
6s + 6s environment. -/
theorem C3_log_timeout_shares_window_witness :
    envC3.remote.dur < 10 ∧
    (getGitInfo envC3 = .error .logTimeout ↔
      10 ≤ envC3.remote.dur + envC3.log.dur) :=
  ⟨by decide, C3_log_timeout_shares_window envC3 (by decide)⟩

/-- C6: when the remote-URL command fails for a reason other than timeout
and the log command succeeds with a parseable date, extraction succeeds
with an empty remote URL and the parsed (valid) commit time, and the
walker emits the corresponding record at any repository behaving this
way. -/
theorem C6_remote_failure_not_fatal (e : RepoEnv) (s : String) (dd : DateTime)
    (h1 : e.remote.dur < 10) (h2 : e.remote.out = none)
    (h3 : e.remote.dur + e.log.dur < 10) (h4 : e.log.out = some s)
    (h5 : parseGitDate (trimGo s) = some dd) :
    getGitInfo e = .ok ("", dd) ∧ ValidDate dd ∧
    ∀ (env : FsEnv) (par : List String) (ch : FSTreeList),
      env par = e →
      GitProject.mk par (baseSeg par) "" dd ∈ (walkT env par (.dir ".git" ch)).2 := by
  have hok : getGitInfo e = .ok ("", dd) := by
    unfold getGitInfo
    rw [if_neg (by omega), h2]
    dsimp only []
    rw [if_neg (by omega), h4]
    dsimp only []
    rw [h5]
  refine ⟨hok, getGitInfo_ok_valid hok, ?_⟩
  intro env par ch henv
  rw [walkT]
  dsimp only []
  rw [if_pos rfl, henv, hok]
  exact List.mem_append_left _ (List.mem_singleton.mpr rfl)

/-- C6 witness: a concrete environment whose remote command exits
non-zero after 1s and whose log command prints a parseable date. -/
theorem C6_remote_failure_not_fatal_witness :
    (envC6.remote.dur < 10 ∧ envC6.remote.out = none ∧
     envC6.remote.dur + envC6.log.dur < 10 ∧
     envC6.log.out = some "2024-05-15 15:00:00 +0300" ∧
     parseGitDate (trimGo "2024-05-15 15:00:00 +0300") =
       some ⟨2024, 5, 15, 15, 0, 0, false, 3, 0⟩) ∧
    getGitInfo envC6 = .ok ("", ⟨2024, 5, 15, 15, 0, 0, false, 3, 0⟩) :=
  ⟨⟨by decide, rfl, by decide, rfl, by decide⟩,
   (C6_remote_failure_not_fatal envC6 "2024-05-15 15:00:00 +0300"
     ⟨2024, 5, 15, 15, 0, 0, false, 3, 0⟩
     (by decide) rfl (by decide) rfl (by decide)).1⟩

/-- C9: with zero `--directory` options the run ends in the usage
outcome — exit status 1, nothing scanned and nothing written. -/
theorem C9_no_directories_exits_nonzero (env : FsEnv) (createOk : Bool) :
    runMain env [] createOk = .usage ∧
    exitCode (runMain env [] createOk) = 1 ∧
    writtenRows (runMain env [] createOk) = none :=
  ⟨rfl, rfl, rfl⟩

/-- C10: if creating the output CSV file fails, `main` returns without
writing any rows and the process exit status is 0 — the fatal
sink-creation failure is not reflected in a non-zero exit code. -/
theorem C10_sink_failure_returns_exit_zero (env : FsEnv) (roots : List RootSpec)
    (h : roots ≠ []) :
    exitCode (runMain env roots false) = 0 ∧
    writtenRows (runMain env roots false) = none := by
  unfold runMain
  rw [if_neg (by simpa using h)]
  exact ⟨rfl, rfl⟩

/-- C10 witness: a run over one root whose CSV creation fails exits with
status 0 and writes nothing. -/
theorem C10_sink_failure_returns_exit_zero_witness :
    ([⟨[], FSTree.file "x"⟩] : List RootSpec) ≠ [] ∧
    (exitCode (runMain envOK [⟨[], FSTree.file "x"⟩] false) = 0 ∧
     writtenRows (runMain envOK [⟨[], FSTree.file "x"⟩] false) = none) :=
  ⟨by simp, C10_sink_failure_returns_exit_zero envOK [⟨[], FSTree.file "x"⟩] (by simp)⟩

/-- C7 witness: the round-trip at the concrete git date
`2024-05-15 15:00:00 +0300` keeps the wall clock and zeroes the
`+0300` offset. -/
theorem C7_format_reparse_drops_offset_witness :
    parseGitDate "2024-05-15 15:00:00 +0300" =
      some ⟨2024, 5, 15, 15, 0, 0, false, 3, 0⟩ ∧
    parsePlain (fmtOut ⟨2024, 5, 15, 15, 0, 0, false, 3, 0⟩) =
      some ⟨2024, 5, 15, 15, 0, 0, false, 0, 0⟩ :=
  ⟨by decide, C7_format_reparse_drops_offset "2024-05-15 15:00:00 +0300" _ (by decide)⟩

end GGS
